import Mathlib

/-!
Shallow embedding of the todo-app repository (two front-ends, `app.py` and
`todo.py`, plus two standalone threshold validators) together with proofs
about the specified behaviour.

Modelling conventions:
* Calendar dates are proleptic-Gregorian; a moment in time ("today") is a day
  number, an `Int` counting days since 1970-01-01, obtained from the civil
  date by the standard era-based conversion (the same arithmetic Python's
  `datetime.date` performs via its ordinal representation).
* Python strings are `String`; `None` for an optional string is `Option`.
* Python floats are modelled exactly as rationals `ℚ` (the aggregation claims
  are about which values enter the sums, not about rounding).
* Python exceptions that a function swallows internally are modelled by
  `Option`-returning parsers; all modelled functions are total.
-/

/-! ## Calendar arithmetic (model of Python `datetime.date`) -/

/-- Gregorian leap-year test, as `calendar.isleap` / `datetime` use. -/
def isLeap (y : Nat) : Bool :=
  y % 4 = 0 && (y % 100 ≠ 0 || y % 400 = 0)

/-- Number of days in a month of a given year. -/
def daysInMonth (y m : Nat) : Nat :=
  match m with
  | 2 => if isLeap y then 29 else 28
  | 4 => 30
  | 6 => 30
  | 9 => 30
  | 11 => 30
  | _ => 31

/-- Day number (days since 1970-01-01) of a civil date, era-based algorithm. -/
def daysFromCivil (y : Int) (m d : Nat) : Int :=
  let y2 : Int := if m ≤ 2 then y - 1 else y
  let era : Int := Int.fdiv y2 400
  let yoe : Nat := (y2 - era * 400).toNat
  let mp : Nat := (m + 9) % 12
  let doy : Nat := (153 * mp + 2) / 5 + d - 1
  let doe : Nat := yoe * 365 + yoe / 4 - yoe / 100 + doy
  era * 146097 + (doe : Int) - 719468

/-- Civil date `(year, month, day)` of a day number; inverse of `daysFromCivil`. -/
def civilFromDays (z : Int) : Int × Nat × Nat :=
  let z2 : Int := z + 719468
  let era : Int := Int.fdiv z2 146097
  let doe : Nat := (z2 - era * 146097).toNat
  let yoe : Nat := (doe - doe / 1460 + doe / 36524 - doe / 146096) / 365
  let y : Int := (yoe : Int) + era * 400
  let doy : Nat := doe - (365 * yoe + yoe / 4 - yoe / 100)
  let mp : Nat := (5 * doy + 2) / 153
  let d : Nat := doy - (153 * mp + 2) / 5 + 1
  let m : Nat := if mp < 10 then mp + 3 else mp - 9
  (if m ≤ 2 then y + 1 else y, m, d)

/-! ## Character helpers -/

/-- Numeric value of a decimal digit character. -/
def dval (c : Char) : Nat := c.toNat - 48

/-- ASCII lower-casing, the relevant fragment of Python `str.lower()`. -/
def pyLower (cs : List Char) : List Char :=
  cs.map (fun c => if 'A' ≤ c ∧ c ≤ 'Z' then Char.ofNat (c.toNat + 32) else c)

/-- Python whitespace test (the characters `str.strip()` removes). -/
def isPyWs (c : Char) : Bool :=
  c = ' ' || c = '\t' || c = '\n' || c = '\r' || c.toNat = 11 || c.toNat = 12

/-- Strip leading and trailing whitespace, as Python `str.strip()`. -/
def pyStrip (cs : List Char) : List Char :=
  ((cs.dropWhile isPyWs).reverse.dropWhile isPyWs).reverse

/-- Value of a nonempty all-digit character run, else `none`. -/
def digitsVal : List Char → Option Nat
  | [] => none
  | [c] => if c.isDigit then some (dval c) else none
  | c :: rest =>
    if c.isDigit then (digitsVal rest).map (fun n => dval c * 10 ^ rest.length + n)
    else none

/-- Continuation of `digitsValU` after at least one digit: more digits, with
a single `_` allowed only between two digits (Python's digit grouping). -/
def digitsValURest (acc : Nat) : List Char → Option Nat
  | [] => some acc
  | [c] => if c.isDigit then some (acc * 10 + dval c) else none
  | c :: d :: rest =>
    if c.isDigit then digitsValURest (acc * 10 + dval c) (d :: rest)
    else if c = '_' ∧ d.isDigit then digitsValURest (acc * 10 + dval d) rest
    else none

/-- Value of a digit run with Python's underscore grouping: starts with a
digit, and each `_` stands between two digits (`1_0` is 10; `_1`, `1_` and
`1__0` are rejected, as `int()` rejects them). -/
def digitsValU : List Char → Option Nat
  | [] => none
  | c :: rest => if c.isDigit then digitsValURest (dval c) rest else none

/-- Model of Python `int(s)`: optional surrounding whitespace, optional sign,
nonempty digit run with optional single underscores between digits. -/
def pyInt (cs : List Char) : Option Int :=
  match pyStrip cs with
  | '-' :: rest => (digitsValU rest).map (fun n => -(n : Int))
  | '+' :: rest => (digitsValU rest).map (fun n => (n : Int))
  | t => (digitsValU t).map (fun n => (n : Int))

/-! ## `strptime` for the four formats used by the repository

Python's `_strptime` matches `%Y` against exactly four digits, `%m` against
`1[0-2]|0[1-9]|[1-9]` and `%d` against `3[01]|[12]\d|0[1-9]|[1-9]` (regex
alternation, longest listed alternative first); the assembled values are then
validated by the `datetime` constructor (year ≥ 1, day fits the month).
Because the separator after a field is never a digit, the regex backtracking
collapses to: take a valid two-digit field when the next two characters form
one, else a one-digit field. -/

/-- Match `%Y`: exactly four digits. -/
def takeYear4 : List Char → Option (Nat × List Char)
  | a :: b :: c :: d :: rest =>
    if a.isDigit && b.isDigit && c.isDigit && d.isDigit then
      some (1000 * dval a + 100 * dval b + 10 * dval c + dval d, rest)
    else none
  | _ => none

/-- Match `%m`: two digits giving 1..12, else one digit 1..9. -/
def takeMonth : List Char → Option (Nat × List Char)
  | a :: b :: rest =>
    if a.isDigit && b.isDigit && 1 ≤ 10 * dval a + dval b && 10 * dval a + dval b ≤ 12 then
      some (10 * dval a + dval b, rest)
    else if a.isDigit && 1 ≤ dval a then some (dval a, b :: rest)
    else none
  | [a] => if a.isDigit && 1 ≤ dval a then some (dval a, []) else none
  | [] => none

/-- Match `%d`: two digits giving 1..31, else one digit 1..9. -/
def takeDay : List Char → Option (Nat × List Char)
  | a :: b :: rest =>
    if a.isDigit && b.isDigit && 1 ≤ 10 * dval a + dval b && 10 * dval a + dval b ≤ 31 then
      some (10 * dval a + dval b, rest)
    else if a.isDigit && 1 ≤ dval a then some (dval a, b :: rest)
    else none
  | [a] => if a.isDigit && 1 ≤ dval a then some (dval a, []) else none
  | [] => none

/-- Match one literal character. -/
def takeLit (c : Char) : List Char → Option (List Char)
  | x :: rest => if x = c then some rest else none
  | [] => none

/-- The `datetime` constructor's validation of an assembled (y, m, d). -/
def mkDate (y m d : Nat) : Option (Nat × Nat × Nat) :=
  if 1 ≤ y ∧ d ≤ daysInMonth y m then some (y, m, d) else none

/-- `strptime(s, "%Y-%m-%d")`. -/
def strptimeYMD (cs : List Char) : Option (Nat × Nat × Nat) := do
  let (y, r1) ← takeYear4 cs
  let r2 ← takeLit '-' r1
  let (m, r3) ← takeMonth r2
  let r4 ← takeLit '-' r3
  let (d, r5) ← takeDay r4
  if r5 = [] then mkDate y m d else none

/-- `strptime(s, "%d/%m/%Y")`. -/
def strptimeDMYslash (cs : List Char) : Option (Nat × Nat × Nat) := do
  let (d, r1) ← takeDay cs
  let r2 ← takeLit '/' r1
  let (m, r3) ← takeMonth r2
  let r4 ← takeLit '/' r3
  let (y, r5) ← takeYear4 r4
  if r5 = [] then mkDate y m d else none

/-- `strptime(s, "%m/%d/%Y")`. -/
def strptimeMDYslash (cs : List Char) : Option (Nat × Nat × Nat) := do
  let (m, r1) ← takeMonth cs
  let r2 ← takeLit '/' r1
  let (d, r3) ← takeDay r2
  let r4 ← takeLit '/' r3
  let (y, r5) ← takeYear4 r4
  if r5 = [] then mkDate y m d else none

/-- `strptime(s, "%d-%m-%Y")`. -/
def strptimeDMYdash (cs : List Char) : Option (Nat × Nat × Nat) := do
  let (d, r1) ← takeDay cs
  let r2 ← takeLit '-' r1
  let (m, r3) ← takeMonth r2
  let r4 ← takeLit '-' r3
  let (y, r5) ← takeYear4 r4
  if r5 = [] then mkDate y m d else none

/-! ## `strftime("%Y-%m-%d")` -/

/-- Two-digit zero-padded decimal rendering (for values below 100). -/
def pad2 (n : Nat) : List Char :=
  if n < 10 then ['0', Char.ofNat (48 + n)]
  else [Char.ofNat (48 + n / 10), Char.ofNat (48 + n % 10)]

/-- Four-digit zero-padded decimal rendering (for values below 10000). -/
def pad4 (n : Nat) : List Char := pad2 (n / 100) ++ pad2 (n % 100)

/-- `strftime("%Y-%m-%d")` on a civil date (4-digit zero-padded year). -/
def formatYMD (y m d : Nat) : String :=
  ⟨pad4 y ++ '-' :: (pad2 m ++ '-' :: pad2 d)⟩

/-- Render a day number as a `YYYY-MM-DD` string. -/
def formatCivil (z : Int) : String :=
  match civilFromDays z with
  | (y, m, d) => formatYMD y.toNat m d

/-! ## `todo.py`: `parse_date` -/

/-- The format loop of `todo.py`'s `parse_date`: try `%Y-%m-%d`, `%d/%m/%Y`,
`%m/%d/%Y`, `%d-%m-%Y` in that order; on the first success re-render with
`strftime("%Y-%m-%d")`; a `ValueError` means "continue with the next format". -/
def tryFormats (cs : List Char) : Option String :=
  match strptimeYMD cs with
  | some (y, m, d) => some (formatYMD y m d)
  | none =>
    match strptimeDMYslash cs with
    | some (y, m, d) => some (formatYMD y m d)
    | none =>
      match strptimeMDYslash cs with
      | some (y, m, d) => some (formatYMD y m d)
      | none =>
        match strptimeDMYdash cs with
        | some (y, m, d) => some (formatYMD y m d)
        | none => none

instance {ε α : Type} [DecidableEq ε] [DecidableEq α] : DecidableEq (Except ε α) :=
  fun a b =>
    match a, b with
    | Except.error e1, Except.error e2 =>
      if h : e1 = e2 then isTrue (by rw [h]) else isFalse (fun hc => h (by injection hc))
    | Except.error _, Except.ok _ => isFalse (fun hc => Except.noConfusion hc)
    | Except.ok _, Except.error _ => isFalse (fun hc => Except.noConfusion hc)
    | Except.ok v1, Except.ok v2 =>
      if h : v1 = v2 then isTrue (by rw [h]) else isFalse (fun hc => h (by injection hc))

/-- Day number of `datetime.date.min` (0001-01-01). -/
def pyDateMin : Int := daysFromCivil 1 1 1

/-- Day number of `datetime.date.max` (9999-12-31). -/
def pyDateMax : Int := daysFromCivil 9999 12 31

/-- Python `some_date + timedelta(days=n)`: `timedelta` itself raises
`OverflowError` for `|n| > 999999999`, and the addition raises
`OverflowError` when the result leaves the supported date range
0001-01-01 .. 9999-12-31.  The error value models the exception. -/
def addDays (today n : Int) : Except Unit Int :=
  if n.natAbs > 999999999 then Except.error ()
  else if today + n < pyDateMin ∨ pyDateMax < today + n then Except.error ()
  else Except.ok (today + n)

/-- `todo.py` `parse_date(date_str)`, with the ambient clock made explicit:
`today` is the current day number.  Mirrors the Python control flow: empty
input is rejected, the input is lower-cased for the `today`/`tomorrow`/`Nd`
checks, a failing `int()` inside the `Nd` branch falls through to the format
loop (which sees the original string).  Only `ValueError` is caught there,
so the `OverflowError` that `timedelta`/date addition raises for an
out-of-range relative date propagates to the caller: `Except.error ()`
models that uncaught exception, `Except.ok` the normal returns. -/
def parse_date (s : String) (today : Int) : Except Unit (Option String) :=
  if s = "" then Except.ok none
  else
    let lower := pyLower s.data
    if lower = "today".data then Except.ok (some (formatCivil today))
    else if lower = "tomorrow".data then
      (addDays today 1).map (fun z => some (formatCivil z))
    else if lower.getLast? = some 'd' then
      match pyInt lower.dropLast with
      | some n => (addDays today n).map (fun z => some (formatCivil z))
      | none => Except.ok (tryFormats s.data)
    else Except.ok (tryFormats s.data)

/-! ## Classifier (`todo.py` lines 54-82, duplicated in `app.py` lines 67-95) -/

/-- `todo.py` `calculate_days_until_target(target_date_str)`: empty or
unparseable (`%Y-%m-%d`) input yields `none`, otherwise the signed number of
calendar days from `today` to the target date. -/
def calculate_days_until_target (target_date_str : String) (today : Int) : Option Int :=
  if target_date_str = "" then none
  else
    match strptimeYMD target_date_str.data with
    | none => none
    | some (y, m, d) => some (daysFromCivil (y : Int) m d - today)

/-- `todo.py` `get_target_status(target_date_str, status)`. -/
def get_target_status (target_date_str status : String) (today : Int) : String :=
  if status = "completed" then "completed"
  else
    match calculate_days_until_target target_date_str today with
    | none => "no_target"
    | some days =>
      if days < 0 then "overdue"
      else if days = 0 then "due_today"
      else if days ≤ 2 then "due_soon"
      else "on_track"

/-- `app.py` `calculate_days_until_target` (the web variant's duplicate copy). -/
def app_calculate_days_until_target (target_date_str : String) (today : Int) : Option Int :=
  if target_date_str = "" then none
  else
    match strptimeYMD target_date_str.data with
    | none => none
    | some (y, m, d) => some (daysFromCivil (y : Int) m d - today)

/-- `app.py` `get_target_status` (the web variant's duplicate copy). -/
def app_get_target_status (target_date_str status : String) (today : Int) : String :=
  if status = "completed" then "completed"
  else
    match app_calculate_days_until_target target_date_str today with
    | none => "no_target"
    | some days =>
      if days < 0 then "overdue"
      else if days = 0 then "due_today"
      else if days ≤ 2 then "due_soon"
      else "on_track"

/-- The spec's classification of a day difference (spec section 4.1 step 4):
`days < 0 → overdue`, `days == 0 → due_today`, `1 ≤ days ≤ 2 → due_soon`,
`days > 2 → on_track`. -/
def classifyDays (days : Int) : String :=
  if days < 0 then "overdue"
  else if days = 0 then "due_today"
  else if 1 ≤ days ∧ days ≤ 2 then "due_soon"
  else "on_track"

/-! ## Spec-side date-parser definitions (for claim C4) -/

/-- The claim's relative form: a string ending in the (lower-cased) suffix `d`
whose remainder is a parseable integer. -/
def specRelativeCI (s : String) : Option Int :=
  if (pyLower s.data).getLast? = some 'd' then pyInt (pyLower s.data).dropLast else none

/-- The four calendar formats of the spec, in their fixed order. -/
def specFormatList : List (List Char → Option (Nat × Nat × Nat)) :=
  [strptimeYMD, strptimeDMYslash, strptimeMDYslash, strptimeDMYdash]

/-- Date parser written from the amended claim's words, literals matched
case-insensitively: accept the literal `today`, the literal `tomorrow`, a
relative `<N>d` — which yields the date `N` days from today when that date
is representable, and raises the uncaught `OverflowError` (the error value)
when `N` exceeds the `timedelta` bound or the target leaves years 1..9999 —
or the first of the four calendar formats that parses, rendering every
returned date as `YYYY-MM-DD`; anything else (including the empty string) is
`none`. -/
def specParseDateCI (s : String) (today : Int) : Except Unit (Option String) :=
  if pyLower s.data = "today".data then Except.ok (some (formatCivil today))
  else if pyLower s.data = "tomorrow".data then
    (addDays today 1).map (fun z => some (formatCivil z))
  else
    match specRelativeCI s with
    | some n => (addDays today n).map (fun z => some (formatCivil z))
    | none =>
      match specFormatList.findSome? (fun f => f s.data) with
      | some (y, m, d) => Except.ok (some (formatYMD y m d))
      | none => Except.ok none

/-- Date parser written from the claim's words read literally: the literals
`today` and `tomorrow` and the suffix `d` are matched case-sensitively. -/
def specParseDateCS (s : String) (today : Int) : Option String :=
  if s = "today" then some (formatCivil today)
  else if s = "tomorrow" then some (formatCivil (today + 1))
  else if s.data.getLast? = some 'd' then
    match pyInt s.data.dropLast with
    | some n => some (formatCivil (today + n))
    | none =>
      match specFormatList.findSome? (fun f => f s.data) with
      | some (y, m, d) => some (formatYMD y m d)
      | none => none
  else
    match specFormatList.findSome? (fun f => f s.data) with
    | some (y, m, d) => some (formatYMD y m d)
    | none => none

/-! ## Python `float()` (model of the effort values) -/

/-- Fraction digits: value scaled so that `.25` parses to `(25, 2)`. -/
def fracVal : List Char → Option (Nat × Nat)
  | [] => none
  | [c] => if c.isDigit then some (dval c, 1) else none
  | c :: rest =>
    if c.isDigit then (fracVal rest).map (fun p => (dval c * 10 ^ p.2 + p.1, p.2 + 1))
    else none

/-- Split an optional leading sign; `true` means negative. -/
def splitSign : List Char → Bool × List Char
  | '-' :: rest => (true, rest)
  | '+' :: rest => (false, rest)
  | cs => (false, cs)

/-- Unsigned decimal literal `digits[.digits] | digits. | .digits` as an exact
rational. -/
def decMantissa (cs : List Char) : Option ℚ :=
  match cs.span Char.isDigit with
  | (intPart, rest) =>
    match rest with
    | [] => (digitsVal intPart).map (fun n => (n : ℚ))
    | '.' :: frac =>
      match frac with
      | [] => (digitsVal intPart).map (fun n => (n : ℚ))
      | _ =>
        match fracVal frac with
        | none => none
        | some (fv, fl) =>
          match digitsVal intPart with
          | some n => some ((n : ℚ) + (fv : ℚ) / (10 : ℚ) ^ fl)
          | none => if intPart = [] then some ((fv : ℚ) / (10 : ℚ) ^ fl) else none
    | _ => none

/-- Model of Python `float(s)` on finite decimal literals: optional
whitespace, optional sign, decimal mantissa, optional `e`/`E` exponent.
(`inf`/`nan` and digit-group underscores are outside the model.) -/
def pyFloat (cs : List Char) : Option ℚ :=
  let t := pyStrip cs
  match splitSign t with
  | (neg, body) =>
    let split := body.span (fun c => c ≠ 'e' ∧ c ≠ 'E')
    let value : Option ℚ :=
      match split.2 with
      | [] => decMantissa body
      | _ :: expPart =>
        match decMantissa split.1 with
        | none => none
        | some mant =>
          match splitSign expPart with
          | (eneg, edigits) =>
            match digitsVal edigits with
            | none => none
            | some e =>
              if eneg then some (mant / (10 : ℚ) ^ e) else some (mant * (10 : ℚ) ^ e)
    value.map (fun v => if neg then -v else v)

/-! ## The task record and the collection operations -/

/-- A task record (spec section 3).  `completed` is the CLI variant's extra
boolean flag (absent keys read as falsy in Python, so the web variant's
records carry `false`).  The on-read computed fields `days_until_target` and
`target_status` are represented by the classifier functions, not stored. -/
structure Todo where
  id : Nat
  task : String
  priority : String
  status : String
  effort : String
  target_date : String
  completed : Bool
  created_at : String
  completed_at : Option String
deriving DecidableEq, Repr

/-- `app.py` `VALID_STATUSES`. -/
def VALID_STATUSES : List String := ["pending", "in_progress", "on_hold", "completed"]

/-- `app.py` `VALID_EFFORTS`. -/
def VALID_EFFORTS : List String := ["0.5", "1", "2", "4", "8", "16", "24", "40"]

/-- `todo.py` `EFFORT_OPTIONS` (CLI shorthand → stored hour string). -/
def EFFORT_OPTIONS : List (String × String) :=
  [("30m", "0.5"), ("1h", "1"), ("2h", "2"), ("4h", "4"),
   ("1d", "8"), ("2d", "16"), ("3d", "24"), ("1w", "40")]

/-- `if effort in EFFORT_OPTIONS: effort = EFFORT_OPTIONS[effort]`. -/
def mapEffort (e : String) : String :=
  match EFFORT_OPTIONS.lookup e with
  | some v => v
  | none => e

/-- `max(todo["id"] for todo in todos)` with 0 for the empty list (the empty
case is never reached by `get_next_id`). -/
def maxId (todos : List Todo) : Nat :=
  todos.foldl (fun a t => Nat.max a t.id) 0

/-- `app.py` `get_next_id(todos)`. -/
def get_next_id (todos : List Todo) : Nat :=
  if todos = [] then 1 else maxId todos + 1

/-- `len(todos) + 1`, the id the CLI variant's `add_todo` assigns. -/
def cli_next_id (todos : List Todo) : Nat := todos.length + 1

/-- `app.py` `add_todo` (POST), after the non-empty-task guard: append a
fresh record with status `pending` and no completion stamp. -/
def api_add_todo (todos : List Todo) (task priority effort target_date now : String) :
    List Todo :=
  todos ++ [{ id := get_next_id todos, task := task, priority := priority,
              status := "pending", effort := effort, target_date := target_date,
              completed := false, created_at := now, completed_at := none }]

/-- A partial update request body (PUT): present keys only. -/
structure UpdateData where
  status : Option String
  task : Option String
  priority : Option String
  effort : Option String
  target_date : Option String
deriving DecidableEq, Repr

/-- Outcome of `app.py` `update_todo`. -/
inductive UpdateResult where
  | ok : Todo → UpdateResult
  | invalidStatus : List String → UpdateResult
  | notFound : UpdateResult
deriving DecidableEq, Repr

/-- Result of a PUT: HTTP-level outcome, the stored collection afterwards,
and whether `save_todos` ran. -/
structure UpdateOutcome where
  result : UpdateResult
  todos : List Todo
  saved : Bool
deriving DecidableEq, Repr

/-- The status branch of `update_todo`: set the status and stamp or clear
`completed_at`. -/
def applyStatus (s now : String) (t : Todo) : Todo :=
  { t with status := s, completed_at := if s = "completed" then some now else none }

/-- The non-status field assignments of `update_todo`, in source order. -/
def applyRest (data : UpdateData) (t : Todo) : Todo :=
  let t1 := match data.task with
            | some v => { t with task := v }
            | none => t
  let t2 := match data.priority with
            | some v => { t1 with priority := v }
            | none => t1
  let t3 := match data.effort with
            | some v => { t2 with effort := v }
            | none => t2
  match data.target_date with
  | some v => { t3 with target_date := v }
  | none => t3

/-- `app.py` `update_todo(todo_id)`: walk the collection; at the first record
with the requested id, reject an invalid status before touching anything,
otherwise apply the present fields, save and return the record; a miss is a
404 with nothing saved. -/
def update_todo (id : Nat) (data : UpdateData) (now : String) :
    List Todo → UpdateOutcome
  | [] => ⟨.notFound, [], false⟩
  | t :: ts =>
    if t.id = id then
      match data.status with
      | some s =>
        if s ∈ VALID_STATUSES then
          let t2 := applyRest data (applyStatus s now t)
          ⟨.ok t2, t2 :: ts, true⟩
        else ⟨.invalidStatus VALID_STATUSES, t :: ts, false⟩
      | none =>
        let t2 := applyRest data t
        ⟨.ok t2, t2 :: ts, true⟩
    else
      let o := update_todo id data now ts
      ⟨o.result, t :: o.todos, o.saved⟩

/-- Remove the first record with the given id (no-op when absent). -/
def removeFirst (id : Nat) : List Todo → List Todo
  | [] => []
  | t :: ts => if t.id = id then ts else t :: removeFirst id ts

/-- `app.py` `delete_todo` (the web variant does not renumber). -/
def api_delete_todo (id : Nat) (todos : List Todo) : List Todo :=
  removeFirst id todos

/-- `app.py` `clear_completed`. -/
def api_clear_completed (todos : List Todo) : List Todo :=
  todos.filter (fun t => t.status ≠ "completed")

/-- Apply `f` to the first record with the given id (no-op when absent). -/
def setFirstMatch (id : Nat) (f : Todo → Todo) : List Todo → List Todo
  | [] => []
  | t :: ts => if t.id = id then f t :: ts else t :: setFirstMatch id f ts

/-- `for j, t in enumerate(todos): t["id"] = j + 1`, starting from `n`. -/
def renumberFrom (n : Nat) : List Todo → List Todo
  | [] => []
  | t :: ts => { t with id := n } :: renumberFrom (n + 1) ts

/-- The CLI's contiguous renumbering to ids 1..N. -/
def renumber (todos : List Todo) : List Todo := renumberFrom 1 todos

/-- `todo.py` `add_todo(task, priority, effort, target_date)`.  A failed date
parse stores Python `None`; every reader of `target_date` treats `None` and
`""` alike (falsy / a caught `TypeError`), so `None` is modelled as `""`.
When `parse_date` raises the uncaught `OverflowError`, it does so before the
record is built and saved, so the stored collection is unchanged. -/
def cli_add_todo (task priority effort target_date now : String) (today : Int)
    (todos : List Todo) : List Todo :=
  let e := mapEffort effort
  match (if target_date ≠ "" then (parse_date target_date today).map (fun o => o.getD "")
         else Except.ok "") with
  | Except.error _ => todos
  | Except.ok pd =>
    todos ++ [{ id := cli_next_id todos, task := task, priority := priority,
                status := "pending", effort := e, target_date := pd,
                completed := false, created_at := now, completed_at := none }]

/-- `todo.py` `complete_todo(todo_id)`: an already-completed record is left
untouched, otherwise status, flag and stamp are set together. -/
def cli_complete_todo (id : Nat) (now : String) (todos : List Todo) : List Todo :=
  setFirstMatch id
    (fun t =>
      if t.status = "completed" ∨ t.completed then t
      else { t with status := "completed", completed := true, completed_at := some now })
    todos

/-- `todo.py` `set_effort(todo_id, effort)` (no validation of the value). -/
def cli_set_effort (id : Nat) (effort : String) (todos : List Todo) : List Todo :=
  setFirstMatch id (fun t => { t with effort := mapEffort effort }) todos

/-- `todo.py` `set_target_date(todo_id, target_date)`: an unparseable date is
rejected with no state change, and the uncaught `OverflowError` of an
out-of-range relative date propagates before anything is modified or
saved. -/
def cli_set_target_date (id : Nat) (target_date : String) (today : Int)
    (todos : List Todo) : List Todo :=
  match parse_date target_date today with
  | Except.error _ => todos
  | Except.ok none => todos
  | Except.ok (some pd) => setFirstMatch id (fun t => { t with target_date := pd }) todos

/-- `todo.py` `delete_todo(todo_id)`: pop the first match, then renumber; a
miss changes nothing. -/
def cli_delete_todo (id : Nat) (todos : List Todo) : List Todo :=
  if todos.any (fun t => t.id = id) then renumber (removeFirst id todos) else todos

/-- `todo.py` `clear_completed`: drop completed records (status or flag);
when nothing was removed the early return skips the renumbering and save. -/
def cli_clear_completed (todos : List Todo) : List Todo :=
  let active := todos.filter (fun t => t.status ≠ "completed" ∧ t.completed = false)
  if active.length = todos.length then todos else renumber active

/-! ## Reachable collection states -/

/-- Collection states reachable from the empty store (`load_todos` of an
absent file) through the mutating operations of either front-end. -/
inductive Reachable : List Todo → Prop where
  | empty : Reachable []
  | api_add : ∀ l task priority effort target_date now, Reachable l → task ≠ "" →
      Reachable (api_add_todo l task priority effort target_date now)
  | api_update : ∀ l id data now, Reachable l →
      Reachable (update_todo id data now l).todos
  | api_delete : ∀ l id, Reachable l → Reachable (api_delete_todo id l)
  | api_clear : ∀ l, Reachable l → Reachable (api_clear_completed l)
  | cli_add : ∀ l task priority effort target_date now today, Reachable l →
      Reachable (cli_add_todo task priority effort target_date now today l)
  | cli_complete : ∀ l id now, Reachable l → Reachable (cli_complete_todo id now l)
  | cli_effort : ∀ l id e, Reachable l → Reachable (cli_set_effort id e l)
  | cli_date : ∀ l id d today, Reachable l → Reachable (cli_set_target_date id d today l)
  | cli_delete : ∀ l id, Reachable l → Reachable (cli_delete_todo id l)
  | cli_clear : ∀ l, Reachable l → Reachable (cli_clear_completed l)

/-- Collection states reachable through the CLI variant's operations alone
(the two variants persist to different files). -/
inductive CliReachable : List Todo → Prop where
  | empty : CliReachable []
  | add : ∀ l task priority effort target_date now today, CliReachable l →
      CliReachable (cli_add_todo task priority effort target_date now today l)
  | complete : ∀ l id now, CliReachable l → CliReachable (cli_complete_todo id now l)
  | effort : ∀ l id e, CliReachable l → CliReachable (cli_set_effort id e l)
  | date : ∀ l id d today, CliReachable l → CliReachable (cli_set_target_date id d today l)
  | delete : ∀ l id, CliReachable l → CliReachable (cli_delete_todo id l)
  | clear : ∀ l, CliReachable l → CliReachable (cli_clear_completed l)

/-- The completion-stamp invariant (spec section 3): `completed_at` is
non-null exactly on completed records. -/
def CompletedAtInv (l : List Todo) : Prop :=
  ∀ t ∈ l, t.completed_at ≠ none ↔ t.status = "completed"

/-- The CLI id-numbering invariant: the ids read 1, 2, ..., N in collection
order. -/
def IdsSeq (l : List Todo) : Prop :=
  l.map Todo.id = List.range' 1 l.length

/-! ## The listing sort (`todo.py` `list_todos`, lines 232-239) -/

/-- `target_order.get(x, 4)` of `list_todos`. -/
def targetRank (s : String) : Nat :=
  if s = "overdue" then 0
  else if s = "due_today" then 1
  else if s = "due_soon" then 2
  else if s = "on_track" then 3
  else if s = "no_target" then 4
  else if s = "completed" then 5
  else 4

/-- `priority_order.get(x, 1)` of `list_todos`. -/
def priorityRank (s : String) : Nat :=
  if s = "high" then 0
  else if s = "medium" then 1
  else if s = "low" then 2
  else 1

/-- The sort key of `list_todos`: the pair
`(target_status_rank, priority_rank)`. -/
def sortKey (today : Int) (t : Todo) : Nat × Nat :=
  (targetRank (get_target_status t.target_date t.status today),
   priorityRank t.priority)

/-- Lexicographic order on sort keys, as Python compares the tuples. -/
def keyLe (a b : Nat × Nat) : Prop :=
  a.1 < b.1 ∨ (a.1 = b.1 ∧ a.2 ≤ b.2)

instance (a b : Nat × Nat) : Decidable (keyLe a b) := by
  unfold keyLe
  exact inferInstance

/-- The comparison `display_todos.sort(key=...)` sorts by. -/
def todoLe (today : Int) (a b : Todo) : Prop :=
  keyLe (sortKey today a) (sortKey today b)

instance (today : Int) : DecidableRel (todoLe today) := by
  unfold todoLe
  exact inferInstance

instance (today : Int) : IsTotal Todo (todoLe today) where
  total a b := by
    unfold todoLe keyLe
    rcases Nat.lt_trichotomy (sortKey today a).1 (sortKey today b).1 with h | h | h
    · exact Or.inl (Or.inl h)
    · rcases Nat.le_total (sortKey today a).2 (sortKey today b).2 with h2 | h2
      · exact Or.inl (Or.inr ⟨h, h2⟩)
      · exact Or.inr (Or.inr ⟨h.symm, h2⟩)
    · exact Or.inr (Or.inl h)

instance (today : Int) : IsTrans Todo (todoLe today) where
  trans a b c hab hbc := by
    unfold todoLe keyLe at *
    rcases hab with h1 | ⟨e1, l1⟩
    · rcases hbc with h2 | ⟨e2, _⟩
      · exact Or.inl (h1.trans h2)
      · exact Or.inl (e2 ▸ h1)
    · rcases hbc with h2 | ⟨e2, l2⟩
      · exact Or.inl (e1 ▸ h2)
      · exact Or.inr ⟨e1.trans e2, l1.trans l2⟩

/-- The stable sort `display_todos.sort(key=...)` (Python's sort is stable;
any stable sort by the same key computes the same list). -/
def sortTodos (today : Int) (l : List Todo) : List Todo :=
  List.insertionSort (todoLe today) l

/-! ## The summary aggregation (`app.py` `get_summary`, lines 207-246) -/

/-- The effort reading of the summary loop: the `try: float(effort)` guarded
by `if effort:`. -/
def effortVal (t : Todo) : Option ℚ :=
  if t.effort = "" then none else pyFloat t.effort.data

/-- The summary response object. -/
structure Summary where
  total_tasks : Nat
  completed_tasks : Nat
  total_effort_hours : ℚ
  completed_effort_hours : ℚ
  remaining_effort_hours : ℚ
  overdue_count : Nat
  due_soon_count : Nat
deriving DecidableEq, Repr

/-- One iteration of the summary loop over
`(total_effort, completed_effort, overdue_count, due_soon_count)`. -/
def summaryStep (today : Int) (acc : ℚ × ℚ × Nat × Nat) (t : Todo) : ℚ × ℚ × Nat × Nat :=
  let acc1 :=
    match effortVal t with
    | some h =>
      if t.status = "completed" then (acc.1 + h, acc.2.1 + h, acc.2.2.1, acc.2.2.2)
      else (acc.1 + h, acc.2.1, acc.2.2.1, acc.2.2.2)
    | none => acc
  let ts := app_get_target_status t.target_date t.status today
  if ts = "overdue" then (acc1.1, acc1.2.1, acc1.2.2.1 + 1, acc1.2.2.2)
  else if ts = "due_today" ∨ ts = "due_soon" then (acc1.1, acc1.2.1, acc1.2.2.1, acc1.2.2.2 + 1)
  else acc1

/-- `app.py` `get_summary`. -/
def get_summary (today : Int) (todos : List Todo) : Summary :=
  let acc := todos.foldl (summaryStep today) (0, 0, 0, 0)
  { total_tasks := todos.length
    completed_tasks := (todos.filter (fun t => t.status = "completed")).length
    total_effort_hours := acc.1
    completed_effort_hours := acc.2.1
    remaining_effort_hours := acc.1 - acc.2.1
    overdue_count := acc.2.2.1
    due_soon_count := acc.2.2.2 }

/-- The parsable-effort sum the spec describes: the sum of the numeric values
of `effort` over the tasks whose effort string is non-empty and parses. -/
def effortSum (l : List Todo) : ℚ := (l.filterMap effortVal).sum

/-- The same sum restricted to completed tasks. -/
def completedEffortSum (l : List Todo) : ℚ :=
  ((l.filter (fun t => t.status = "completed")).filterMap effortVal).sum

/-! ## The two bundled threshold validators -/

/-- `threshold_demo.py` `validate_commit(confidence, should_commit, threshold)`:
`confidence >= threshold and should_commit is True`. -/
def validate_commit (confidence : ℚ) (should_commit : Bool) (threshold : ℚ) : Bool :=
  decide (threshold ≤ confidence) && (should_commit == true)

/-- `threshold_validation.py` `ThresholdValidator` (holds the configured
confidence threshold, default 0.75). -/
structure ThresholdValidator where
  confidence_threshold : ℚ
deriving DecidableEq, Repr

/-- `ThresholdValidator.should_proceed_with_commit(confidence, should_commit)`:
`confidence >= self.confidence_threshold and should_commit is True`. -/
def ThresholdValidator.should_proceed_with_commit (v : ThresholdValidator)
    (confidence : ℚ) (should_commit : Bool) : Bool :=
  decide (v.confidence_threshold ≤ confidence) && (should_commit == true)

/-! ## Concrete records used by counterexamples and witnesses -/

/-- A task record with given id, status, effort; other fields neutral. -/
def mkTodo (id : Nat) (status effort : String) (stamp : Option String) : Todo :=
  { id := id, task := "t", priority := "medium", status := status, effort := effort,
    target_date := "", completed := false, created_at := "2026-01-01T00:00:00", completed_at := stamp }

/-- A collection whose ids are 1 and 3 (as the web variant leaves behind after
deleting the middle record). -/
def demoPair : List Todo :=
  [mkTodo 1 "pending" "" none, mkTodo 3 "pending" "" none]

/-- A collection with a completed effort-8 task and a pending effort-"-8"
task (the web API stores effort without validation). -/
def demoNegEffort : List Todo :=
  [mkTodo 1 "completed" "8" (some "2026-01-02T00:00:00"), mkTodo 2 "pending" "-8" none]

/-- A collection with a completed effort-8 task and a pending task with no
effort estimate. -/
def demoPosEffort : List Todo :=
  [mkTodo 1 "completed" "8" (some "2026-01-02T00:00:00"), mkTodo 2 "pending" "" none]

/-- An update request carrying a disallowed status plus another field. -/
def bogusUpdate : UpdateData :=
  { status := some "bogus", task := some "renamed", priority := none,
    effort := none, target_date := none }

/-! # Theorems -/

/-- C10: the two bundled threshold validators are equivalent: for every
confidence `c`, decision flag `s` and threshold `t`, `validate_commit`
agrees with `ThresholdValidator(t).should_proceed_with_commit`, and both
compute the two-factor predicate `c ≥ t` and `s = true`. -/
theorem C10_threshold_validators_equivalent (c t : ℚ) (s : Bool) :
    validate_commit c s t = (ThresholdValidator.mk t).should_proceed_with_commit c s ∧
    (validate_commit c s t = true ↔ t ≤ c ∧ s = true) := by
  refine ⟨rfl, ?_⟩
  simp [validate_commit]

/-- C9: the web variant's and the CLI variant's duplicate copies of the
classification logic are extensionally equal: on every target-date string,
status string and current day, `app.py`'s `calculate_days_until_target` and
`get_target_status` return what `todo.py`'s functions of the same names
return. -/
theorem C9_duplicate_logic_extensionally_equal (td st : String) (today : Int) :
    app_calculate_days_until_target td today = calculate_days_until_target td today ∧
    app_get_target_status td st today = get_target_status td st today :=
  ⟨rfl, rfl⟩

/-- C5: a date-parse failure is swallowed, never surfaced: whenever the
stored `target_date` does not parse as `%Y-%m-%d` (which includes the empty
string), `calculate_days_until_target` returns `null` and, for a
non-completed status, `get_target_status` returns `no_target`.  (Both
modelled functions are total, so no input reaches the caller as an error.) -/
theorem C5_parse_failure_swallowed (s st : String) (today : Int)
    (h : strptimeYMD s.data = none) :
    calculate_days_until_target s today = none ∧
    (st ≠ "completed" → get_target_status s st today = "no_target") := by
  have hc : calculate_days_until_target s today = none := by
    unfold calculate_days_until_target
    split
    · rfl
    · rw [h]
  refine ⟨hc, fun hst => ?_⟩
  unfold get_target_status
  rw [if_neg hst, hc]

/-- C5 witness: the wrong-format string `13/07/2026` yields a null day count
and `no_target` for a pending task. -/
theorem C5_witness :
    calculate_days_until_target "13/07/2026" 0 = none ∧
    get_target_status "13/07/2026" "pending" 0 = "no_target" := by
  have h := C5_parse_failure_swallowed "13/07/2026" "pending" 0 (by decide)
  exact ⟨h.1, h.2 (by decide)⟩

/-- C1: the target-status classifier: `completed` status short-circuits to
`completed`; the day count is null exactly on an empty or unparseable
`YYYY-MM-DD` target date, and otherwise equals target date minus current
date in calendar days; a null day count gives `no_target`; otherwise the
result is the spec's classification of the day count (`overdue` / `due_today`
/ `due_soon` / `on_track`); and the result depends only on the day count and
the status. -/
theorem C1_target_status_classification (td st : String) (today : Int) :
    (st = "completed" → get_target_status td st today = "completed") ∧
    (calculate_days_until_target td today = none ↔ (td = "" ∨ strptimeYMD td.data = none)) ∧
    (∀ y m d, td ≠ "" → strptimeYMD td.data = some (y, m, d) →
      calculate_days_until_target td today = some (daysFromCivil (y : Int) m d - today)) ∧
    (st ≠ "completed" → calculate_days_until_target td today = none →
      get_target_status td st today = "no_target") ∧
    (∀ days, st ≠ "completed" → calculate_days_until_target td today = some days →
      get_target_status td st today = classifyDays days) ∧
    (∀ td2 today2, calculate_days_until_target td today = calculate_days_until_target td2 today2 →
      get_target_status td st today = get_target_status td2 st today2) := by
  refine ⟨fun h => by unfold get_target_status; rw [if_pos h], ?_, ?_, ?_, ?_, ?_⟩
  · unfold calculate_days_until_target
    by_cases he : td = ""
    · simp [he]
    · rw [if_neg he]
      cases h : strptimeYMD td.data with
      | none => simp [he, h]
      | some v => simp [he, h]
  · intro y m d he hp
    unfold calculate_days_until_target
    rw [if_neg he, hp]
  · intro hst hc
    unfold get_target_status
    rw [if_neg hst, hc]
  · intro days hst hc
    unfold get_target_status classifyDays
    rw [if_neg hst, hc]
    by_cases h0 : days < 0
    · simp [h0]
    · by_cases h1 : days = 0
      · simp [h0, h1]
      · by_cases h2 : days ≤ 2
        · have : 1 ≤ days ∧ days ≤ 2 := ⟨by omega, h2⟩
          simp [h0, h1, h2, this]
        · have : ¬(1 ≤ days ∧ days ≤ 2) := by omega
          simp [h0, h1, h2, this]
  · intro td2 today2 hc
    unfold get_target_status
    by_cases hst : st = "completed"
    · rw [if_pos hst, if_pos hst]
    · rw [if_neg hst, if_neg hst, hc]

/-- C1 witness: two days before a leap-year March 1 target, a pending task is
classified `due_soon`. -/
theorem C1_witness :
    get_target_status "2024-03-01" "pending" (daysFromCivil 2024 2 28) = "due_soon" := by
  have h := (C1_target_status_classification "2024-03-01" "pending"
      (daysFromCivil 2024 2 28)).2.2.2.2.1 2 (by decide) (by decide)
  rw [h]
  decide

/-- The format loop equals "first successful parse among the four formats, in
that fixed order". -/
theorem tryFormats_eq_findSome (cs : List Char) :
    tryFormats cs =
      match specFormatList.findSome? (fun f => f cs) with
      | some (y, m, d) => some (formatYMD y m d)
      | none => none := by
  unfold tryFormats specFormatList
  rcases h1 : strptimeYMD cs with _ | ⟨y1, m1, d1⟩ <;>
    rcases h2 : strptimeDMYslash cs with _ | ⟨y2, m2, d2⟩ <;>
      rcases h3 : strptimeMDYslash cs with _ | ⟨y3, m3, d3⟩ <;>
        rcases h4 : strptimeDMYdash cs with _ | ⟨y4, m4, d4⟩ <;>
          simp [List.findSome?, h1, h2, h3, h4]

/-- C4 counterexample: two concrete divergences from the claim as stated.
The input `TODAY` matches none of the claim's forms read literally
(case-sensitively), so the claim predicts `null`, but the code lower-cases
its input first and returns today's date.  And for the relative input
`5000000d` — a parseable integer, for which the claim predicts a normalized
date (and the case-sensitive reading of the claim indeed produces one) —
the code raises an uncaught `OverflowError` (`today + timedelta(5000000)`
lies beyond year 9999; only `ValueError` is caught). -/
theorem C4_counterexample :
    parse_date "TODAY" 0 = Except.ok (some "1970-01-01") ∧
    specParseDateCS "TODAY" 0 = none ∧
    (specParseDateCS "5000000d" 0).isSome = true ∧
    parse_date "5000000d" 0 = Except.error () := by
  decide

/-- C4 (amended): the CLI date parser equals the spec's parser with the
literals `today` / `tomorrow` and the relative suffix `d` matched
case-insensitively: it accepts those literals, a relative `<N>d` for any
parseable integer `N` (negative included, digit-group underscores allowed)
whose target date is representable — when `N` exceeds the `timedelta` bound
`999999999` or `today + N` leaves years 1..9999 the uncaught `OverflowError`
propagates to the caller instead of any return value — or the first of the
four calendar formats `YYYY-MM-DD`, `DD/MM/YYYY`, `MM/DD/YYYY`, `DD-MM-YYYY`
(in that fixed order) that parses, returning every parsed date normalized to
`YYYY-MM-DD`; every other string (the empty string included) yields
`null`. -/
theorem C4_amended_parse_date_spec (s : String) (today : Int) :
    parse_date s today = specParseDateCI s today := by
  by_cases hemp : s = ""
  · subst hemp
    have h1 : ¬ pyLower "".data = "today".data := by decide
    have h2 : ¬ pyLower "".data = "tomorrow".data := by decide
    have h3 : ¬ (pyLower "".data).getLast? = some 'd' := by decide
    have h4 : specFormatList.findSome? (fun f => f "".data) = none := by decide
    simp [parse_date, specParseDateCI, specRelativeCI, h1, h2, h3, h4]
  · unfold parse_date specParseDateCI specRelativeCI
    rw [if_neg hemp]
    by_cases h1 : pyLower s.data = "today".data
    · simp [h1]
    · have h1L : ¬ pyLower s.data = ['t', 'o', 'd', 'a', 'y'] := h1
      by_cases h2 : pyLower s.data = "tomorrow".data
      · simp [h1, h2]
      · have h2L : ¬ pyLower s.data = ['t', 'o', 'm', 'o', 'r', 'r', 'o', 'w'] := h2
        by_cases h3 : (pyLower s.data).getLast? = some 'd'
        · rw [if_neg h1, if_neg h2, if_pos h3, if_pos h3]
          cases hn : pyInt (pyLower s.data).dropLast with
          | none =>
            rw [tryFormats_eq_findSome, if_neg h1L, if_neg h2L]
            cases hf : specFormatList.findSome? (fun f => f s.data) with
            | none => rfl
            | some v =>
              rcases v with ⟨y, m, d⟩
              rfl
          | some n => simp [h1L, h2L]
        · rw [if_neg h1, if_neg h2, if_neg h3, if_neg h3]
          rw [tryFormats_eq_findSome, if_neg h1L, if_neg h2L]
          cases hf : specFormatList.findSome? (fun f => f s.data) with
          | none => rfl
          | some v =>
            rcases v with ⟨y, m, d⟩
            rfl

/-- `keyLe` is reflexive. -/
theorem keyLe_refl (a : Nat × Nat) : keyLe a a := Or.inr ⟨rfl, Nat.le_refl _⟩

/-- Inserting a record whose key differs from `k` does not change the
`k`-keyed sublist. -/
theorem filter_key_orderedInsert_ne (today : Int) (k : Nat × Nat) (a : Todo)
    (L : List Todo) (ha : sortKey today a ≠ k) :
    (List.orderedInsert (todoLe today) a L).filter (fun t => decide (sortKey today t = k)) =
      L.filter (fun t => decide (sortKey today t = k)) := by
  induction L with
  | nil => simp [List.orderedInsert, ha]
  | cons b bs ih =>
    by_cases h : todoLe today a b
    · simp [List.orderedInsert, h, List.filter_cons, decide_eq_false ha]
    · simp [List.orderedInsert, h, List.filter_cons, ih]

/-- Inserting a record whose key equals `k` puts it in front of the
`k`-keyed sublist (every record the insertion walks past has a strictly
smaller key, hence a key different from `k`). -/
theorem filter_key_orderedInsert_eq (today : Int) (k : Nat × Nat) (a : Todo)
    (L : List Todo) (ha : sortKey today a = k) :
    (List.orderedInsert (todoLe today) a L).filter (fun t => decide (sortKey today t = k)) =
      a :: L.filter (fun t => decide (sortKey today t = k)) := by
  induction L with
  | nil => simp [List.orderedInsert, ha]
  | cons b bs ih =>
    by_cases h : todoLe today a b
    · simp [List.orderedInsert, h, List.filter_cons, decide_eq_true ha]
    · have hb : sortKey today b ≠ k := by
        intro hbk
        refine h ?_
        unfold todoLe
        rw [ha, hbk]
        exact keyLe_refl k
      simp [List.orderedInsert, h, List.filter_cons, decide_eq_false hb, ih]

/-- Stability of the listing sort: for every key value, the sorted collection
and the original collection carry the same records with that key in the same
relative order. -/
theorem sortTodos_filter_key (today : Int) (k : Nat × Nat) (l : List Todo) :
    (sortTodos today l).filter (fun t => decide (sortKey today t = k)) =
      l.filter (fun t => decide (sortKey today t = k)) := by
  induction l with
  | nil => rfl
  | cons a as ih =>
    show (List.orderedInsert (todoLe today) a
        (List.insertionSort (todoLe today) as)).filter _ = _
    by_cases ha : sortKey today a = k
    · rw [filter_key_orderedInsert_eq today k a _ ha]
      rw [show (List.insertionSort (todoLe today) as).filter
            (fun t => decide (sortKey today t = k)) =
          as.filter (fun t => decide (sortKey today t = k)) from ih]
      simp [List.filter_cons, decide_eq_true ha]
    · rw [filter_key_orderedInsert_ne today k a _ ha]
      rw [show (List.insertionSort (todoLe today) as).filter
            (fun t => decide (sortKey today t = k)) =
          as.filter (fun t => decide (sortKey today t = k)) from ih]
      simp [List.filter_cons, decide_eq_false ha]

/-- C2: the listing sort orders the displayed collection ascending by the
pair `(target_status_rank, priority_rank)` with the rank tables of the
source (`overdue 0 … completed 5`; `high 0, medium 1, low 2`); the result is
a permutation of the input, sorted under the lexicographic key order; the
sort is stable (every equal-key sublist is preserved verbatim); and
re-sorting an already-sorted collection is a no-op. -/
theorem C2_listing_sort (today : Int) (l : List Todo) :
    (["overdue", "due_today", "due_soon", "on_track", "no_target", "completed"].map
        targetRank = [0, 1, 2, 3, 4, 5] ∧
      ["high", "medium", "low"].map priorityRank = [0, 1, 2]) ∧
    List.Perm (sortTodos today l) l ∧
    List.Sorted (todoLe today) (sortTodos today l) ∧
    (∀ k, (sortTodos today l).filter (fun t => decide (sortKey today t = k)) =
      l.filter (fun t => decide (sortKey today t = k))) ∧
    (List.Sorted (todoLe today) l → sortTodos today l = l) := by
  refine ⟨by decide, List.perm_insertionSort _ l, List.sorted_insertionSort _ l,
    fun k => sortTodos_filter_key today k l, fun h => h.insertionSort_eq⟩

/-- C2 witness: a concrete already-sorted two-record collection is left
unchanged by the listing sort. -/
theorem C2_witness : sortTodos 0 demoPair = demoPair :=
  (C2_listing_sort 0 demoPair).2.2.2.2 (by decide)

/-- The effort columns of one summary-loop iteration: the counting branch at
the end of the loop body never touches the two effort accumulators. -/
theorem summaryStep_effort (today : Int) (acc : ℚ × ℚ × Nat × Nat) (t : Todo) :
    (summaryStep today acc t).1 =
      (match effortVal t with
        | some h => acc.1 + h
        | none => acc.1) ∧
    (summaryStep today acc t).2.1 =
      (match effortVal t with
        | some h => if t.status = "completed" then acc.2.1 + h else acc.2.1
        | none => acc.2.1) := by
  cases hv : effortVal t with
  | none =>
    by_cases hst : t.status = "completed" <;>
      simp [summaryStep, hv, hst] <;> split_ifs <;> simp
  | some h =>
    by_cases hst : t.status = "completed" <;>
      simp [summaryStep, hv, hst] <;> split_ifs <;> simp

/-- The summary loop accumulates exactly the parsable-effort sum and its
restriction to completed tasks. -/
theorem summaryFold_effort (today : Int) :
    ∀ (l : List Todo) (acc : ℚ × ℚ × Nat × Nat),
      (l.foldl (summaryStep today) acc).1 = acc.1 + effortSum l ∧
      (l.foldl (summaryStep today) acc).2.1 = acc.2.1 + completedEffortSum l := by
  intro l
  induction l with
  | nil => intro acc; simp [effortSum, completedEffortSum]
  | cons t ts ih =>
    intro acc
    rw [List.foldl_cons]
    have hstep := summaryStep_effort today acc t
    have hrec := ih (summaryStep today acc t)
    cases hv : effortVal t with
    | none =>
      rw [hv] at hstep
      have hS : effortSum (t :: ts) = effortSum ts := by
        simp [effortSum, List.filterMap_cons, hv]
      have hC : completedEffortSum (t :: ts) = completedEffortSum ts := by
        by_cases hst : t.status = "completed" <;>
          simp [completedEffortSum, List.filter_cons, List.filterMap_cons, hv, hst]
      rw [hS, hC, hrec.1, hrec.2, hstep.1, hstep.2]
      exact ⟨rfl, rfl⟩
    | some h =>
      rw [hv] at hstep
      have hS : effortSum (t :: ts) = h + effortSum ts := by
        simp [effortSum, List.filterMap_cons, hv]
      by_cases hst : t.status = "completed"
      · have hC : completedEffortSum (t :: ts) = h + completedEffortSum ts := by
          simp [completedEffortSum, List.filter_cons, List.filterMap_cons, hv, hst]
        rw [hS, hC, hrec.1, hrec.2, hstep.1, hstep.2]
        constructor <;> simp [hst] <;> ring
      · have hC : completedEffortSum (t :: ts) = completedEffortSum ts := by
          simp [completedEffortSum, List.filter_cons, List.filterMap_cons, hv, hst]
        rw [hS, hC, hrec.1, hrec.2, hstep.1, hstep.2]
        refine ⟨?_, ?_⟩
        · simp only []
          ring
        · simp [hst]

/-- When every parsable effort is nonnegative, the completed-restricted sum
is bounded by the full sum. -/
theorem completedEffortSum_le_effortSum (l : List Todo)
    (h : ∀ t ∈ l, ∀ q : ℚ, effortVal t = some q → 0 ≤ q) :
    completedEffortSum l ≤ effortSum l := by
  induction l with
  | nil => exact le_refl 0
  | cons t ts ih =>
    have hts := ih (fun u hu => h u (List.mem_cons_of_mem t hu))
    cases hv : effortVal t with
    | none =>
      have hS : effortSum (t :: ts) = effortSum ts := by
        simp [effortSum, List.filterMap_cons, hv]
      have hC : completedEffortSum (t :: ts) = completedEffortSum ts := by
        by_cases hst : t.status = "completed" <;>
          simp [completedEffortSum, List.filter_cons, List.filterMap_cons, hv, hst]
      rw [hS, hC]
      exact hts
    | some q =>
      have hq : 0 ≤ q := h t (List.mem_cons_self t ts) q hv
      have hS : effortSum (t :: ts) = q + effortSum ts := by
        simp [effortSum, List.filterMap_cons, hv]
      by_cases hst : t.status = "completed"
      · have hC : completedEffortSum (t :: ts) = q + completedEffortSum ts := by
          simp [completedEffortSum, List.filter_cons, List.filterMap_cons, hv, hst]
        rw [hS, hC]
        exact add_le_add_left hts q
      · have hC : completedEffortSum (t :: ts) = completedEffortSum ts := by
          simp [completedEffortSum, List.filter_cons, List.filterMap_cons, hv, hst]
        rw [hS, hC]
        exact hts.trans (le_add_of_nonneg_left hq)

/-- C3 counterexample: the web API stores effort strings unvalidated, so a
collection holding a completed task of effort `8` and a pending task of
effort `-8` has `completed_effort_hours = 8 > 0 = total_effort_hours`,
refuting "completed_effort_hours ≤ total_effort_hours always holds". -/
theorem C3_counterexample :
    ¬ (get_summary 0 demoNegEffort).completed_effort_hours ≤
        (get_summary 0 demoNegEffort).total_effort_hours := by
  have htot := (summaryFold_effort 0 demoNegEffort (0, 0, 0, 0)).1
  have hcomp := (summaryFold_effort 0 demoNegEffort (0, 0, 0, 0)).2
  have hv1 : effortVal (mkTodo 1 "completed" "8" (some "2026-01-02T00:00:00")) = some 8 := by
    decide
  have hv2 : effortVal (mkTodo 2 "pending" "-8" none) = some (-8) := by decide
  have e1 : effortSum demoNegEffort = 0 := by
    simp [effortSum, demoNegEffort, List.filterMap_cons, hv1, hv2]
  have e2 : completedEffortSum demoNegEffort = 8 := by
    have hs1 : (mkTodo 1 "completed" "8" (some "2026-01-02T00:00:00")).status =
        "completed" := rfl
    have hs2 : ¬ (mkTodo 2 "pending" "-8" none).status = "completed" := by decide
    simp [completedEffortSum, demoNegEffort, List.filter_cons, List.filterMap_cons,
      hs1, hs2, hv1]
  show ¬ (demoNegEffort.foldl (summaryStep 0) (0, 0, 0, 0)).2.1 ≤
      (demoNegEffort.foldl (summaryStep 0) (0, 0, 0, 0)).1
  rw [htot, hcomp, e1, e2]
  norm_num

/-- C3 (amended): `total_effort_hours` is the sum of the parsable non-empty
effort values, `completed_effort_hours` is that sum restricted to completed
tasks, `remaining_effort_hours` is their difference; and provided every
parsable effort value is nonnegative (true of the enumerated valid effort
set; the API stores effort without validation, so negative strings can break
it), `completed_effort_hours ≤ total_effort_hours`. -/
theorem C3_summary_aggregation (today : Int) (l : List Todo) :
    (get_summary today l).total_effort_hours = effortSum l ∧
    (get_summary today l).completed_effort_hours = completedEffortSum l ∧
    (get_summary today l).remaining_effort_hours = effortSum l - completedEffortSum l ∧
    ((∀ t ∈ l, ∀ q : ℚ, effortVal t = some q → 0 ≤ q) →
      (get_summary today l).completed_effort_hours ≤
        (get_summary today l).total_effort_hours) := by
  have htot := (summaryFold_effort today l (0, 0, 0, 0)).1
  have hcomp := (summaryFold_effort today l (0, 0, 0, 0)).2
  have h1 : (get_summary today l).total_effort_hours = effortSum l := by
    show (l.foldl (summaryStep today) (0, 0, 0, 0)).1 = effortSum l
    rw [htot]
    ring
  have h2 : (get_summary today l).completed_effort_hours = completedEffortSum l := by
    show (l.foldl (summaryStep today) (0, 0, 0, 0)).2.1 = completedEffortSum l
    rw [hcomp]
    ring
  refine ⟨h1, h2, ?_, fun hpos => ?_⟩
  · show (l.foldl (summaryStep today) (0, 0, 0, 0)).1 -
        (l.foldl (summaryStep today) (0, 0, 0, 0)).2.1 = _
    rw [htot, hcomp]
    ring
  · rw [h1, h2]
    exact completedEffortSum_le_effortSum l hpos

/-- C3 witness: on a collection whose only parsable effort is the completed
task's `8`, the completed effort does not exceed the total. -/
theorem C3_witness :
    (get_summary 0 demoPosEffort).completed_effort_hours ≤
      (get_summary 0 demoPosEffort).total_effort_hours := by
  refine (C3_summary_aggregation 0 demoPosEffort).2.2.2 ?_
  intro t ht q hq
  have hmem : t = mkTodo 1 "completed" "8" (some "2026-01-02T00:00:00") ∨
      t = mkTodo 2 "pending" "" none := by
    simpa [demoPosEffort] using ht
  rcases hmem with h | h
  · have hv : effortVal (mkTodo 1 "completed" "8" (some "2026-01-02T00:00:00")) =
        some 8 := by decide
    rw [h, hv] at hq
    cases hq
    decide
  · have hv : effortVal (mkTodo 2 "pending" "" none) = none := by decide
    rw [h, hv] at hq
    cases hq

/-- C6 counterexample: on the empty collection (every collection is
quantified over, and the web API can reach the empty one), an update request
with status `bogus` fails with the not-found error, not with a validation
error listing the allowed set. -/
theorem C6_counterexample :
    (update_todo 1 bogusUpdate "ts" []).result = UpdateResult.notFound ∧
    (update_todo 1 bogusUpdate "ts" []).result ≠
      UpdateResult.invalidStatus VALID_STATUSES := by
  decide

/-- C6 (amended): for every collection and every update request whose
`status` field is not one of the four enumerated values, nothing is modified
and nothing is saved; when a record with the requested id exists the
operation fails with the validation error listing the allowed set (even when
the request carries other updatable fields), and when none exists it fails
with the not-found error. -/
theorem C6_amended_invalid_status_rejected (todos : List Todo) (id : Nat)
    (data : UpdateData) (now s : String) (hs : data.status = some s)
    (hv : s ∉ VALID_STATUSES) :
    (update_todo id data now todos).todos = todos ∧
    (update_todo id data now todos).saved = false ∧
    ((∃ t ∈ todos, t.id = id) →
      (update_todo id data now todos).result = UpdateResult.invalidStatus VALID_STATUSES) ∧
    ((∀ t ∈ todos, t.id ≠ id) →
      (update_todo id data now todos).result = UpdateResult.notFound) := by
  induction todos with
  | nil =>
    refine ⟨rfl, rfl, fun h => ?_, fun _ => rfl⟩
    rcases h with ⟨t, ht, _⟩
    cases ht
  | cons t ts ih =>
    by_cases hid : t.id = id
    · refine ⟨?_, ?_, fun _ => ?_, fun hall => ?_⟩
      · simp [update_todo, hid, hs, hv]
      · simp [update_todo, hid, hs, hv]
      · simp [update_todo, hid, hs, hv]
      · exact absurd hid (hall t (List.mem_cons_self t ts))
    · refine ⟨?_, ?_, fun hex => ?_, fun hall => ?_⟩
      · simp [update_todo, hid, ih.1]
      · simp [update_todo, hid, ih.2.1]
      · rcases hex with ⟨u, hu, hui⟩
        rcases List.mem_cons.mp hu with rfl | hu2
        · exact absurd hui hid
        · simp [update_todo, hid, ih.2.2.1 ⟨u, hu2, hui⟩]
      · have : ∀ u ∈ ts, u.id ≠ id := fun u hu => hall u (List.mem_cons_of_mem t hu)
        simp [update_todo, hid, ih.2.2.2 this]

/-- C6 witness: a concrete collection containing the requested id rejects a
`bogus`-status update (which also renames the task) with the validation
error, leaving the stored collection untouched and unsaved. -/
theorem C6_witness :
    (update_todo 1 bogusUpdate "ts" demoPair).todos = demoPair ∧
    (update_todo 1 bogusUpdate "ts" demoPair).saved = false ∧
    (update_todo 1 bogusUpdate "ts" demoPair).result =
      UpdateResult.invalidStatus VALID_STATUSES := by
  have h := C6_amended_invalid_status_rejected demoPair 1 bogusUpdate "ts" "bogus"
    rfl (by decide)
  exact ⟨h.1, h.2.1, h.2.2.1 ⟨mkTodo 1 "pending" "" none, by decide, rfl⟩⟩

/-- Membership in `setFirstMatch`: every record is an original or the image
of an original. -/
theorem mem_setFirstMatch (id : Nat) (f : Todo → Todo) :
    ∀ l u, u ∈ setFirstMatch id f l → u ∈ l ∨ ∃ t ∈ l, u = f t := by
  intro l
  induction l with
  | nil => intro u hu; cases hu
  | cons t ts ih =>
    intro u hu
    by_cases hid : t.id = id
    · rw [setFirstMatch, if_pos hid] at hu
      rcases List.mem_cons.mp hu with rfl | hu2
      · exact Or.inr ⟨t, List.mem_cons_self t ts, rfl⟩
      · exact Or.inl (List.mem_cons_of_mem t hu2)
    · rw [setFirstMatch, if_neg hid] at hu
      rcases List.mem_cons.mp hu with rfl | hu2
      · exact Or.inl (List.mem_cons_self u ts)
      · rcases ih u hu2 with h | ⟨v, hv, hvu⟩
        · exact Or.inl (List.mem_cons_of_mem t h)
        · exact Or.inr ⟨v, List.mem_cons_of_mem t hv, hvu⟩

/-- Membership in `removeFirst` implies membership in the original. -/
theorem mem_removeFirst (id : Nat) :
    ∀ l u, u ∈ removeFirst id l → u ∈ l := by
  intro l
  induction l with
  | nil => intro u hu; cases hu
  | cons t ts ih =>
    intro u hu
    by_cases hid : t.id = id
    · rw [removeFirst, if_pos hid] at hu
      exact List.mem_cons_of_mem t hu
    · rw [removeFirst, if_neg hid] at hu
      rcases List.mem_cons.mp hu with rfl | hu2
      · exact List.mem_cons_self u ts
      · exact List.mem_cons_of_mem t (ih u hu2)

/-- Renumbering changes only ids: every output record shares status and
completion stamp with an input record. -/
theorem mem_renumberFrom (n : Nat) (l : List Todo) (u : Todo)
    (hu : u ∈ renumberFrom n l) :
    ∃ t ∈ l, u.status = t.status ∧ u.completed_at = t.completed_at := by
  induction l generalizing n with
  | nil => cases hu
  | cons t ts ih =>
    rw [renumberFrom] at hu
    rcases List.mem_cons.mp hu with rfl | hu2
    · exact ⟨t, List.mem_cons_self t ts, rfl, rfl⟩
    · rcases ih (n + 1) hu2 with ⟨v, hv, h1, h2⟩
      exact ⟨v, List.mem_cons_of_mem t hv, h1, h2⟩

/-- `applyRest` never changes the status. -/
theorem applyRest_status (data : UpdateData) (t : Todo) :
    (applyRest data t).status = t.status := by
  unfold applyRest
  cases data.task <;> cases data.priority <;> cases data.effort <;>
    cases data.target_date <;> rfl

/-- `applyRest` never changes the completion stamp. -/
theorem applyRest_completed_at (data : UpdateData) (t : Todo) :
    (applyRest data t).completed_at = t.completed_at := by
  unfold applyRest
  cases data.task <;> cases data.priority <;> cases data.effort <;>
    cases data.target_date <;> rfl

/-- The status branch of an update establishes the stamp invariant on the
record it touches, whatever the record held before. -/
theorem applyStatus_inv (s now : String) (t : Todo) :
    (applyStatus s now t).completed_at ≠ none ↔ (applyStatus s now t).status = "completed" := by
  by_cases h : s = "completed" <;> simp [applyStatus, h]

/-- Membership in an updated collection: every record is an original, or the
result of the status-plus-fields assignment, or of the fields-only
assignment. -/
theorem mem_update_todo (id : Nat) (data : UpdateData) (now : String) :
    ∀ l u, u ∈ (update_todo id data now l).todos →
      u ∈ l ∨ (∃ t ∈ l, ∃ s, data.status = some s ∧ u = applyRest data (applyStatus s now t)) ∨
        (∃ t ∈ l, data.status = none ∧ u = applyRest data t) := by
  intro l
  induction l with
  | nil => intro u hu; cases hu
  | cons t ts ih =>
    intro u hu
    by_cases hid : t.id = id
    · rw [update_todo, if_pos hid] at hu
      cases hst : data.status with
      | some s =>
        rw [hst] at hu
        by_cases hvs : s ∈ VALID_STATUSES
        · simp [hvs] at hu
          rcases hu with rfl | hu2
          · exact Or.inr (Or.inl ⟨t, List.mem_cons_self t ts, s, rfl, rfl⟩)
          · exact Or.inl (List.mem_cons_of_mem t hu2)
        · simp [hvs] at hu
          rcases hu with rfl | hu2
          · exact Or.inl (List.mem_cons_self u ts)
          · exact Or.inl (List.mem_cons_of_mem t hu2)
      | none =>
        rw [hst] at hu
        simp at hu
        rcases hu with rfl | hu2
        · exact Or.inr (Or.inr ⟨t, List.mem_cons_self t ts, rfl, rfl⟩)
        · exact Or.inl (List.mem_cons_of_mem t hu2)
    · rw [update_todo, if_neg hid] at hu
      rcases List.mem_cons.mp hu with rfl | hu2
      · exact Or.inl (List.mem_cons_self u ts)
      · rcases ih u hu2 with h | ⟨v, hv, hrest⟩ | ⟨v, hv, hrest⟩
        · exact Or.inl (List.mem_cons_of_mem t h)
        · exact Or.inr (Or.inl ⟨v, List.mem_cons_of_mem t hv, hrest⟩)
        · exact Or.inr (Or.inr ⟨v, List.mem_cons_of_mem t hv, hrest⟩)

/-- C7: on every reachable collection state (either variant's operations,
starting from the empty store), every record satisfies `completed_at` is
non-null iff its status is `completed`: adds create `pending` records with a
null stamp, the API update stamps exactly on a transition to `completed` and
clears otherwise, and the CLI completion sets status and stamp together. -/
theorem C7_completed_at_invariant (l : List Todo) (h : Reachable l) :
    CompletedAtInv l := by
  induction h with
  | empty => intro t ht; cases ht
  | api_add l task priority effort target_date now hr htask ih =>
    intro u hu
    rcases List.mem_append.mp hu with h1 | h1
    · exact ih u h1
    · rcases List.mem_singleton.mp h1 with rfl
      simp
  | api_update l id data now hr ih =>
    intro u hu
    rcases mem_update_todo id data now l u hu with h1 | ⟨t, ht, s, _, rfl⟩ | ⟨t, ht, _, rfl⟩
    · exact ih u h1
    · rw [applyRest_status, applyRest_completed_at]
      exact applyStatus_inv s now t
    · rw [applyRest_status, applyRest_completed_at]
      exact ih t ht
  | api_delete l id hr ih =>
    intro u hu
    exact ih u (mem_removeFirst id l u hu)
  | api_clear l hr ih =>
    intro u hu
    exact ih u (List.mem_of_mem_filter hu)
  | cli_add l task priority effort target_date now today hr ih =>
    intro u hu
    simp only [cli_add_todo] at hu
    cases hpd : (if target_date ≠ "" then
        (parse_date target_date today).map (fun o => o.getD "") else Except.ok "") with
    | error e =>
      rw [hpd] at hu
      exact ih u hu
    | ok pd =>
      rw [hpd] at hu
      rcases List.mem_append.mp hu with h1 | h1
      · exact ih u h1
      · rcases List.mem_singleton.mp h1 with rfl
        simp
  | cli_complete l id now hr ih =>
    intro u hu
    rcases mem_setFirstMatch id _ l u hu with h1 | ⟨t, ht, rfl⟩
    · exact ih u h1
    · by_cases hc : t.status = "completed" ∨ t.completed = true
      · simpa [hc] using ih t ht
      · simp [hc]
  | cli_effort l id e hr ih =>
    intro u hu
    rcases mem_setFirstMatch id _ l u hu with h1 | ⟨t, ht, rfl⟩
    · exact ih u h1
    · exact ih t ht
  | cli_date l id d today hr ih =>
    intro u hu
    rw [cli_set_target_date] at hu
    cases hp : parse_date d today with
    | error e =>
      rw [hp] at hu
      exact ih u hu
    | ok o =>
      cases o with
      | none =>
        rw [hp] at hu
        exact ih u hu
      | some pd =>
        rw [hp] at hu
        rcases mem_setFirstMatch id _ l u hu with h1 | ⟨t, ht, rfl⟩
        · exact ih u h1
        · exact ih t ht
  | cli_delete l id hr ih =>
    intro u hu
    rw [cli_delete_todo] at hu
    by_cases hany : l.any (fun t => t.id = id)
    · rw [if_pos hany] at hu
      rcases mem_renumberFrom 1 (removeFirst id l) u hu with ⟨t, ht, h1, h2⟩
      rw [h1, h2]
      exact ih t (mem_removeFirst id l t ht)
    · rw [if_neg hany] at hu
      exact ih u hu
  | cli_clear l hr ih =>
    intro u hu
    rw [cli_clear_completed] at hu
    by_cases hlen : (l.filter (fun t => t.status ≠ "completed" ∧ t.completed = false)).length
        = l.length
    · rw [if_pos hlen] at hu
      exact ih u hu
    · rw [if_neg hlen] at hu
      rcases mem_renumberFrom 1 _ u hu with ⟨t, ht, h1, h2⟩
      rw [h1, h2]
      exact ih t (List.mem_of_mem_filter ht)

/-- C7 witness: the one-record collection produced by a CLI add from the
empty store satisfies the stamp invariant. -/
theorem C7_witness : CompletedAtInv (cli_add_todo "buy milk" "high" "" "" "t0" 0 []) :=
  C7_completed_at_invariant _
    (Reachable.cli_add [] "buy milk" "high" "" "" "t0" 0 Reachable.empty)

/-- `range'` with step 1 grown on the right. -/
theorem range'_one_concat (n : Nat) :
    List.range' 1 (n + 1) = List.range' 1 n ++ [n + 1] := by
  simpa [Nat.add_comm] using List.range'_1_concat 1 n

/-- Renumbering from `n` yields the ids `n, n+1, ...` in order. -/
theorem map_id_renumberFrom (l : List Todo) :
    ∀ n, (renumberFrom n l).map Todo.id = List.range' n l.length := by
  induction l with
  | nil => intro n; rfl
  | cons t ts ih =>
    intro n
    rw [renumberFrom, List.map_cons, ih (n + 1)]
    rfl

/-- An id-preserving first-match edit preserves the id column. -/
theorem map_id_setFirstMatch (id : Nat) (f : Todo → Todo)
    (hf : ∀ t, (f t).id = t.id) :
    ∀ l, (setFirstMatch id f l).map Todo.id = l.map Todo.id := by
  intro l
  induction l with
  | nil => rfl
  | cons t ts ih =>
    by_cases hid : t.id = id
    · rw [setFirstMatch, if_pos hid, List.map_cons, hf t, List.map_cons]
    · rw [setFirstMatch, if_neg hid, List.map_cons, ih, List.map_cons]

/-- The CLI operations keep the id column equal to `1, 2, ..., N`. -/
theorem cliReachable_idsSeq (l : List Todo) (h : CliReachable l) : IdsSeq l := by
  induction h with
  | empty => rfl
  | add l task priority effort target_date now today hr ih =>
    unfold IdsSeq at *
    simp only [cli_add_todo]
    cases hpd : (if target_date ≠ "" then
        (parse_date target_date today).map (fun o => o.getD "") else Except.ok "") with
    | error e => exact ih
    | ok pd =>
      rw [List.map_append, ih, List.map_cons, List.map_nil, List.length_append]
      simpa [cli_next_id] using (range'_one_concat l.length).symm
  | complete l id now hr ih =>
    unfold IdsSeq at *
    have hf : ∀ t : Todo, (if t.status = "completed" ∨ t.completed then t else { t with status := "completed", completed := true, completed_at := some now }).id = t.id := by
      intro t
      by_cases hc : t.status = "completed" ∨ t.completed <;> simp [hc]
    have hm := map_id_setFirstMatch id _ hf l
    have hlen : (cli_complete_todo id now l).length = l.length := by
      have := congrArg List.length hm
      simpa [cli_complete_todo] using this
    rw [cli_complete_todo] at *
    rw [hm, hlen, ih]
  | effort l id e hr ih =>
    unfold IdsSeq at *
    have hm := map_id_setFirstMatch id (fun t => { t with effort := mapEffort e })
      (fun t => rfl) l
    have hlen : (cli_set_effort id e l).length = l.length := by
      have := congrArg List.length hm
      simpa [cli_set_effort] using this
    rw [cli_set_effort] at *
    rw [hm, hlen, ih]
  | date l id d today hr ih =>
    unfold IdsSeq at *
    cases hp : parse_date d today with
    | error e => rw [cli_set_target_date, hp]; exact ih
    | ok o =>
      cases o with
      | none => rw [cli_set_target_date, hp]; exact ih
      | some pd =>
        have hm := map_id_setFirstMatch id (fun t => { t with target_date := pd })
          (fun t => rfl) l
        have hlen : (setFirstMatch id (fun t => { t with target_date := pd }) l).length
            = l.length := by
          have := congrArg List.length hm
          simpa using this
        rw [cli_set_target_date, hp, hm, hlen, ih]
  | delete l id hr ih =>
    unfold IdsSeq at *
    rw [cli_delete_todo]
    by_cases hany : l.any (fun t => t.id = id)
    · rw [if_pos hany]
      unfold renumber
      rw [map_id_renumberFrom]
      have : (renumberFrom 1 (removeFirst id l)).length = (removeFirst id l).length := by
        have := congrArg List.length (map_id_renumberFrom (removeFirst id l) 1)
        simpa using this
      rw [this]
    · rw [if_neg hany]; exact ih
  | clear l hr ih =>
    unfold IdsSeq at *
    rw [cli_clear_completed]
    by_cases hlen : (l.filter (fun t => t.status ≠ "completed" ∧ t.completed = false)).length
        = l.length
    · rw [if_pos hlen]; exact ih
    · rw [if_neg hlen]
      unfold renumber
      rw [map_id_renumberFrom]
      have := congrArg List.length
        (map_id_renumberFrom (l.filter (fun t => t.status ≠ "completed" ∧ t.completed = false)) 1)
      simp only [List.length_map, List.length_range'] at this
      rw [this]

/-- The seed is a lower bound of a left max-fold. -/
theorem le_foldl_max_init (xs : List Nat) : ∀ a, a ≤ xs.foldl Nat.max a := by
  induction xs with
  | nil => intro a; exact Nat.le_refl a
  | cons x cs ih =>
    intro a
    exact (Nat.le_max_left a x).trans (ih (Nat.max a x))

/-- Every member bounds a left max-fold from below. -/
theorem mem_le_foldl_max (xs : List Nat) : ∀ a x, x ∈ xs → x ≤ xs.foldl Nat.max a := by
  induction xs with
  | nil => intro a x hx; cases hx
  | cons y ys ih =>
    intro a x hx
    rcases List.mem_cons.mp hx with rfl | hx2
    · exact (Nat.le_max_right a x).trans (le_foldl_max_init ys (Nat.max a x))
    · exact ih (Nat.max a y) x hx2

/-- The max-fold of `1, ..., n` is `n`. -/
theorem foldl_max_range' : ∀ n : Nat, (List.range' 1 n).foldl Nat.max 0 = n := by
  intro n
  induction n with
  | zero => rfl
  | succ k ih =>
    rw [range'_one_concat, List.foldl_append, ih]
    exact Nat.max_eq_right (Nat.le_succ k)

/-- `maxId` through the id column. -/
theorem maxId_eq_foldl (l : List Todo) :
    maxId l = (l.map Todo.id).foldl Nat.max 0 := by
  rw [maxId, List.foldl_map]

/-- C8 counterexample: on the collection with ids `{1, 3}` (which the web
variant produces by deleting the middle record), the CLI add assigns
`len+1 = 3`, not `max+1 = 4`, and the resulting id is a duplicate — so "the
add operation assigns max(existing)+1, hence unique, in both variants" fails
for the CLI variant. -/
theorem C8_counterexample :
    ((cli_add_todo "task" "medium" "" "" "t" 0 demoPair).map Todo.id) = [1, 3, 3] ∧
    get_next_id demoPair = 4 ∧
    ¬ ((cli_add_todo "task" "medium" "" "" "t" 0 demoPair).map Todo.id).Nodup := by
  refine ⟨by decide, by decide, ?_⟩
  intro h
  rw [show ((cli_add_todo "task" "medium" "" "" "t" 0 demoPair).map Todo.id) = [1, 3, 3]
    from by decide] at h
  simp at h

/-- C8 (amended): the web variant's `get_next_id` assigns `max(existing)+1`
(or 1 on the empty collection), which is never an existing id; the CLI
variant assigns `len+1`, which equals `max(existing)+1` and is fresh on
every CLI-reachable collection (its ids always read `1..N`), but not on
arbitrary collections. -/
theorem C8_amended_id_assignment :
    (∀ todos : List Todo,
      (todos = [] → get_next_id todos = 1) ∧
      (todos ≠ [] → get_next_id todos = maxId todos + 1) ∧
      get_next_id todos ∉ todos.map Todo.id) ∧
    (∀ l : List Todo, CliReachable l →
      cli_next_id l = maxId l + 1 ∧ cli_next_id l ∉ l.map Todo.id) := by
  constructor
  · intro todos
    refine ⟨fun he => by rw [get_next_id, if_pos he], fun hne => by rw [get_next_id, if_neg hne], ?_⟩
    intro hmem
    by_cases he : todos = []
    · subst he; cases hmem
    · rw [get_next_id, if_neg he] at hmem
      have hle : maxId todos + 1 ≤ maxId todos := by
        have h2 := mem_le_foldl_max (todos.map Todo.id) 0 (maxId todos + 1) hmem
        rw [maxId_eq_foldl] at h2 ⊢
        exact h2
      omega
  · intro l hr
    have hseq := cliReachable_idsSeq l hr
    have hmax : maxId l = l.length := by
      rw [maxId_eq_foldl, hseq, foldl_max_range']
    refine ⟨by rw [cli_next_id, hmax], ?_⟩
    intro hmem
    rw [hseq] at hmem
    have := List.mem_range'_1.mp hmem
    rw [cli_next_id] at this
    omega

/-- C8 witness: the web variant assigns id 4 on the `{1, 3}` collection, and
on the CLI-reachable one-record collection the CLI's next id equals
`max+1`. -/
theorem C8_witness :
    get_next_id demoPair = maxId demoPair + 1 ∧
    cli_next_id (cli_add_todo "a" "medium" "" "" "t" 0 []) =
      maxId (cli_add_todo "a" "medium" "" "" "t" 0 []) + 1 := by
  refine ⟨C8_amended_id_assignment.1 demoPair |>.2.1 (by decide), ?_⟩
  exact (C8_amended_id_assignment.2 _
    (CliReachable.add [] "a" "medium" "" "" "t" 0 CliReachable.empty)).1
